import Mathlib

/-!
Verification of the `endless` zero-downtime-restart HTTP server library.

The development shallowly embeds the Go source (`endless.go`) into Lean:
pure fragments become Lean functions, the stateful server becomes explicit
state passing over a `Server` record, and Go's `(value, err)` returns
become pairs with an `Option String` error component.  Goroutine bodies
(`hammerTime`, the signal loop) are modelled as the sequential state
transformers they perform, with the `recover()`ed panic surfaced as a
boolean.
-/

namespace Endless

/-! ### Server lifecycle state

The Go source declares `STATE_INIT`, `STATE_RUNNING`, `STATE_SHUTTING_DOWN`,
`STATE_TERMINATE` as consecutive constants and stores one of them in
`endlessServer.state`. -/

/-- The four values of `endlessServer.state`. -/
inductive SrvState where
  | init
  | running
  | shuttingDown
  | terminate
deriving DecidableEq, Repr

/-- Numeric rank of a lifecycle state, matching the declaration order of the
Go constants (`STATE_INIT < STATE_RUNNING < STATE_SHUTTING_DOWN <
STATE_TERMINATE`). -/
def SrvState.rank : SrvState → Nat
  | .init => 0
  | .running => 1
  | .shuttingDown => 2
  | .terminate => 3

/-- Shallow state of one `endlessServer`: its lifecycle `state`, the
`sync.WaitGroup` counter of accepted-but-unclosed connections
(`outstanding`), whether `EndlessListener.Close()` has been invoked, whether
HTTP keep-alives are enabled, and whether a `hammerTime` goroutine has been
launched by `shutdown`. -/
structure Server where
  state : SrvState
  outstanding : Nat
  listenerClosed : Bool
  keepAlives : Bool
  hammerLaunched : Bool
deriving DecidableEq, Repr

/-- Go `endlessServer.shutdown`, with the process-wide `DefaultHammerTime`
(a `time.Duration`, i.e. signed integer of nanoseconds) passed explicitly:

```go
func (srv *endlessServer) shutdown() {
    if srv.getState() != STATE_RUNNING { return }
    srv.setState(STATE_SHUTTING_DOWN)
    if DefaultHammerTime >= 0 { go srv.hammerTime(DefaultHammerTime) }
    srv.SetKeepAlivesEnabled(false)
    err := srv.EndlessListener.Close()
    ...
}
```
-/
def shutdown (defaultHammerTime : Int) (s : Server) : Server :=
  if s.state ≠ SrvState.running then s
  else
    { s with
      state := SrvState.shuttingDown
      hammerLaunched := if 0 ≤ defaultHammerTime then true else s.hammerLaunched
      keepAlives := false
      listenerClosed := true }

/-- Go `endlessServer.hammerTime(d)`, run to completion.  The body is

```go
defer func() { if r := recover(); r != nil { logPrintln("WaitGroup at 0", r) } }()
if srv.getState() != STATE_SHUTTING_DOWN { return }
time.Sleep(d)
for {
    if srv.getState() == STATE_TERMINATE { break }
    srv.wg.Done()
    runtime.Gosched()
}
```

Run sequentially (no concurrent `setState(STATE_TERMINATE)`), the loop calls
`wg.Done()` until the counter underflows and panics, which the deferred
`recover` catches; so the counter ends at `0`.  The returned boolean records
whether the caught underflow panic occurred.  The sleep duration `d` does
not affect the resulting state. -/
def hammerTime (d : Int) (s : Server) : Server × Bool :=
  if s.state ≠ SrvState.shuttingDown then (s, false)
  else
    let _ := d
    ({ s with outstanding := 0 }, true)

/-- The `syscall.SIGUSR2` arm of `handleSignals`:
`srv.hammerTime(0 * time.Second)`. -/
def handleUSR2 (s : Server) : Server × Bool :=
  hammerTime 0 s

/-- Whether `Serve()` can return: `srv.Server.Serve` has exited its accept
loop (which requires the tracking listener to be closed) and the drain
barrier `srv.wg.Wait()` is passable (`outstanding = 0`). -/
def serveUnblocked (s : Server) : Prop :=
  s.listenerClosed = true ∧ s.outstanding = 0

instance (s : Server) : Decidable (serveUnblocked s) := by
  unfold serveUnblocked
  infer_instance

/-- The operations of the lifecycle state machine named by the spec:
`Serve`'s opening `setState(STATE_RUNNING)`, `Serve`'s closing
`setState(STATE_TERMINATE)` (after `wg.Wait()`), `shutdown` (with its
`DefaultHammerTime` argument), and a completed `hammerTime` run. -/
inductive LifeOp where
  | serveStart
  | serveFinish
  | shutdownOp (defaultHammerTime : Int)
  | hammerOp
deriving DecidableEq, Repr

/-- Effect of each lifecycle operation on the server state, exactly as the
Go source performs it.  `Serve` sets `STATE_RUNNING` unconditionally on
entry and `STATE_TERMINATE` unconditionally after its wait; `shutdown` and
`hammerTime` are the functions above. -/
def applyOp : LifeOp → Server → Server
  | .serveStart, s => { s with state := SrvState.running }
  | .serveFinish, s => { s with state := SrvState.terminate }
  | .shutdownOp dht, s => shutdown dht s
  | .hammerOp, s => (hammerTime 0 s).1

/-! ### Claim C5: `shutdown` -/

/-- C5: `shutdown()` is a no-op (state, listener, and hammer all unchanged —
indeed the whole server state is unchanged) whenever state is not `Running`;
when state is `Running` it transitions to `ShuttingDown`, launches the
delayed hammer if and only if `DefaultHammerTime ≥ 0` (a negative value
disables hammering), disables HTTP keep-alives, and closes the listener. -/
theorem shutdown_spec (dht : Int) (s : Server) :
    (s.state ≠ SrvState.running → shutdown dht s = s) ∧
    (s.state = SrvState.running → s.hammerLaunched = false →
      (shutdown dht s).state = SrvState.shuttingDown ∧
      ((shutdown dht s).hammerLaunched = true ↔ 0 ≤ dht) ∧
      (shutdown dht s).keepAlives = false ∧
      (shutdown dht s).listenerClosed = true ∧
      (shutdown dht s).outstanding = s.outstanding) := by
  constructor
  · intro h
    simp [shutdown, h]
  · intro hrun hham
    refine ⟨?_, ?_, ?_, ?_, ?_⟩
    · simp [shutdown, hrun]
    · by_cases hdh : 0 ≤ dht <;> simp [shutdown, hrun, hham, hdh]
    · simp [shutdown, hrun]
    · simp [shutdown, hrun]
    · simp [shutdown, hrun]

/-- Witness for C5: a concrete running server with `DefaultHammerTime = 60s`
is moved to `ShuttingDown` with the hammer launched, keep-alives off and the
listener closed; and the same server in `Init` is untouched. -/
theorem shutdown_spec_witness :
    (Server.mk SrvState.running 2 false true false).state = SrvState.running ∧
    (shutdown 60000000000 (Server.mk SrvState.running 2 false true false)).state
      = SrvState.shuttingDown := by
  refine ⟨rfl, ?_⟩
  exact (shutdown_spec 60000000000 (Server.mk SrvState.running 2 false true false)).2
    rfl rfl |>.1

/-! ### Claim C6: SIGUSR2 and the zero-delay hammer

The claim as stated quantifies over every moment at which SIGUSR2 is
handled with `outstanding = 0`.  But `hammerTime` begins with
`if srv.getState() != STATE_SHUTTING_DOWN { return }`: handled outside
`ShuttingDown` (e.g. while `Running`), the hammer returns without any
underflow panic, the listener stays open, and `Serve` does not return. -/

/-- The property claim C6 asserts of a server state `s` at the moment SIGUSR2
is handled: the hammer run completes via its caught counter-underflow panic
and afterwards `Serve` can return. -/
def usr2DrainClaim (s : Server) : Prop :=
  (handleUSR2 s).2 = true ∧ serveUnblocked (handleUSR2 s).1

instance (s : Server) : Decidable (usr2DrainClaim s) := by
  unfold usr2DrainClaim
  infer_instance

/-- Counterexample to C6 as stated: a server that is `Running` with
`outstanding = 0` (listener open, no shutdown yet).  SIGUSR2 invokes
`hammerTime(0)`, which bails out at its `STATE_SHUTTING_DOWN` guard: no
underflow panic occurs and `Serve` stays blocked in its accept loop. -/
theorem handleUSR2_running_cex :
    (Server.mk SrvState.running 0 false true false).outstanding = 0 ∧
    ¬ usr2DrainClaim (Server.mk SrvState.running 0 false true false) := by
  decide

/-- C6 amended: whenever SIGUSR2 is handled while the server is
`ShuttingDown` (hence its listener has been closed by `shutdown`) and
`outstanding = 0`, the zero-delay hammer terminates through its caught
counter-underflow panic (not propagated) and `Serve` can return. -/
theorem handleUSR2_shuttingDown_drains (s : Server)
    (hst : s.state = SrvState.shuttingDown)
    (hlc : s.listenerClosed = true)
    (_hout : s.outstanding = 0) :
    (handleUSR2 s).2 = true ∧ serveUnblocked (handleUSR2 s).1 := by
  refine ⟨?_, ?_, ?_⟩ <;>
    simp [handleUSR2, hammerTime, serveUnblocked, hst, hlc]

/-- Witness for the amended C6 at a concrete shutting-down server. -/
theorem handleUSR2_shuttingDown_drains_witness :
    (Server.mk SrvState.shuttingDown 0 true false true).state
        = SrvState.shuttingDown ∧
    (Server.mk SrvState.shuttingDown 0 true false true).listenerClosed = true ∧
    (Server.mk SrvState.shuttingDown 0 true false true).outstanding = 0 ∧
    (handleUSR2 (Server.mk SrvState.shuttingDown 0 true false true)).2 = true ∧
    serveUnblocked
      (handleUSR2 (Server.mk SrvState.shuttingDown 0 true false true)).1 := by
  refine ⟨rfl, rfl, rfl, ?_⟩
  exact handleUSR2_shuttingDown_drains
    (Server.mk SrvState.shuttingDown 0 true false true) rfl rfl rfl

/-! ### Claim C8: lifecycle monotonicity

The claim says every operation moves the state at most one step forward
(`no skipping`).  `Serve`, however, executes `setState(STATE_TERMINATE)`
unconditionally once the serving loop and the drain wait finish; if the
serving loop exits while the state is still `Running` (an accept error, or
`http.Server.Close` — nothing in `Serve` requires `shutdown` to have run),
the state jumps `Running → Terminated`, skipping `ShuttingDown`. -/

/-- One admissible step of claim C8: the state is unchanged or advances to
its immediate successor in the order Init → Running → ShuttingDown →
Terminated.  (`rank` has no value 4, so this also forbids leaving
`Terminated`.) -/
def stepNoSkip (a b : SrvState) : Prop :=
  b = a ∨ SrvState.rank b = SrvState.rank a + 1

instance (a b : SrvState) : Decidable (stepNoSkip a b) := by
  unfold stepNoSkip
  infer_instance

/-- Counterexample to C8 as stated: `Serve`'s final transition
(`applyOp .serveFinish`) applied to a `Running` server yields `Terminated`,
two ranks ahead — the claimed "no skipping" fails. -/
theorem serveFinish_skips_cex :
    (Server.mk SrvState.running 1 true false true).state = SrvState.running ∧
    (applyOp LifeOp.serveFinish
        (Server.mk SrvState.running 1 true false true)).state
      = SrvState.terminate ∧
    ¬ stepNoSkip (Server.mk SrvState.running 1 true false true).state
        (applyOp LifeOp.serveFinish
          (Server.mk SrvState.running 1 true false true)).state := by
  decide

/-- C8 amended: within one `Serve` lifecycle the state only moves forward in
rank under every operation — `shutdown` and `Serve`'s final transition never
decrease the rank, the hammer never changes the state, `Serve`'s opening
transition takes `Init` to `Running`, and `shutdown` takes `Running` exactly
one step to `ShuttingDown` — but `Serve`'s final transition may skip
`ShuttingDown`, jumping `Running → Terminated`, when the serving loop exits
without `shutdown`.  Once `Terminated`, `shutdown` and the hammer leave the
whole server (state and `outstanding` counter) unchanged, and `Serve`'s
final transition keeps the state `Terminated` without touching the
counter. -/
theorem lifecycle_forward (s : Server) (dht : Int) :
    (SrvState.rank s.state
        ≤ SrvState.rank (applyOp (LifeOp.shutdownOp dht) s).state) ∧
    ((applyOp LifeOp.hammerOp s).state = s.state) ∧
    (SrvState.rank s.state
        ≤ SrvState.rank (applyOp LifeOp.serveFinish s).state) ∧
    (s.state = SrvState.init →
      (applyOp LifeOp.serveStart s).state = SrvState.running) ∧
    (s.state = SrvState.running →
      (applyOp (LifeOp.shutdownOp dht) s).state = SrvState.shuttingDown) ∧
    (s.state = SrvState.terminate →
      applyOp (LifeOp.shutdownOp dht) s = s ∧
      applyOp LifeOp.hammerOp s = s ∧
      (applyOp LifeOp.serveFinish s).state = SrvState.terminate ∧
      (applyOp LifeOp.serveFinish s).outstanding = s.outstanding) := by
  obtain ⟨st, o, lc, ka, hl⟩ := s
  cases st <;>
    simp [applyOp, shutdown, hammerTime, SrvState.rank]

/-- Witness for the amended C8: at a concrete `Terminated` server neither
`shutdown` nor the hammer changes anything, and `Serve`'s final transition
leaves the counter alone; at a concrete `Running` server `shutdown` steps to
`ShuttingDown`. -/
theorem lifecycle_forward_witness :
    (Server.mk SrvState.terminate 4 true false true).state
        = SrvState.terminate ∧
    applyOp (LifeOp.shutdownOp (-1))
        (Server.mk SrvState.terminate 4 true false true)
      = Server.mk SrvState.terminate 4 true false true ∧
    (Server.mk SrvState.running 4 false true false).state
        = SrvState.running ∧
    (applyOp (LifeOp.shutdownOp (-1))
        (Server.mk SrvState.running 4 false true false)).state
      = SrvState.shuttingDown := by
  refine ⟨rfl, ?_, rfl, ?_⟩
  · exact ((lifecycle_forward
      (Server.mk SrvState.terminate 4 true false true) (-1)).2.2.2.2.2 rfl).1
  · exact (lifecycle_forward
      (Server.mk SrvState.running 4 false true false) (-1)).2.2.2.2.1 rfl

/-! ### Tracking listener and connection counter (claim C1)

`endlessListener.Accept` wraps each accepted TCP connection in an
`endlessConn` and calls `el.server.wg.Add(1)` before returning;
`endlessConn.Close` calls `w.Conn.Close()` and calls `w.server.wg.Done()`
only when that returned `nil`.  The `sync.WaitGroup` counter is modelled as
an integer (`wg.Add(1)` is `+1`, `wg.Done()` is `-1`). -/

/-- State of one underlying `net.TCPConn`: whether it has been closed. -/
structure ConnState where
  closed : Bool
deriving DecidableEq, Repr

/-- Go `net.TCPConn.Close`: succeeds and marks the connection closed the
first time; on an already-closed connection it fails with the "use of closed
network connection" error and changes nothing. -/
def tcpConnClose (c : ConnState) : Option String × ConnState :=
  if c.closed then (some "use of closed network connection", c)
  else (none, { closed := true })

/-- Go `endlessConn.Close`:

```go
func (w endlessConn) Close() error {
    err := w.Conn.Close()
    if err == nil { w.server.wg.Done() }
    return err
}
```

Takes and returns the owning server's `wg` counter alongside the connection
state. -/
def endlessConnClose (c : ConnState) (wg : Int) :
    Option String × ConnState × Int :=
  match tcpConnClose c with
  | (none, c₂) => (none, c₂, wg - 1)
  | (some e, c₂) => (some e, c₂, wg)

/-- Go `endlessListener.Accept`, abstracting the wrapped
`Listener.AcceptTCP()` outcome as `acceptTCP : Option String` (`some e` an
error, `none` a fresh connection):

```go
func (el *endlessListener) Accept() (c net.Conn, err error) {
    tc, err := el.Listener.(*net.TCPListener).AcceptTCP()
    if err != nil { return }
    tc.SetKeepAlive(true)
    tc.SetKeepAlivePeriod(3 * time.Minute)
    c = endlessConn{Conn: tc, server: el.server}
    el.server.wg.Add(1)
    return
}
```
-/
def endlessAccept (acceptTCP : Option String) (wg : Int) :
    Option String × Option ConnState × Int :=
  match acceptTCP with
  | some e => (some e, none, wg)
  | none => (none, some { closed := false }, wg + 1)

/-- Iterated `endlessConn.Close`: `n` successive `Close()` calls on the same
connection, threading the connection state and the `wg` counter. -/
def closeN : Nat → ConnState → Int → ConnState × Int
  | 0, c, wg => (c, wg)
  | n + 1, c, wg =>
    match endlessConnClose c wg with
    | (_, c₂, wg₂) => closeN n c₂ wg₂

/-- Any number of `Close()` calls on an already-closed connection leaves both
the connection and the counter unchanged: every underlying close errors, so
`wg.Done()` is never reached. -/
theorem closeN_closed (n : Nat) (w : Int) :
    closeN n { closed := true } w = ({ closed := true }, w) := by
  induction n with
  | zero => rfl
  | succ n ih => simpa [closeN, endlessConnClose, tcpConnClose] using ih

/-- C1: for every connection accepted through the tracking listener the
owning server's `wg` counter is incremented exactly once, inside `Accept`,
before `Accept` returns (and not at all when the underlying accept fails);
and it is decremented at most once — a `Close` whose underlying close errors
does not decrement, and any positive number of `Close` calls on an accepted
connection decrements exactly once in total (the first call succeeds and
decrements; all later calls error on the closed connection). -/
theorem conn_tracking_spec :
    (∀ wg : Int,
      endlessAccept none wg = (none, some { closed := false }, wg + 1)) ∧
    (∀ (e : String) (wg : Int),
      endlessAccept (some e) wg = (some e, none, wg)) ∧
    (∀ (c : ConnState) (wg : Int), c.closed = true →
      (endlessConnClose c wg).1.isSome = true ∧
      (endlessConnClose c wg).2.2 = wg) ∧
    (∀ (n : Nat) (wg : Int), 1 ≤ n →
      closeN n { closed := false } wg = ({ closed := true }, wg - 1)) := by
  refine ⟨fun wg => rfl, fun e wg => rfl, ?_, ?_⟩
  · intro c wg hc
    obtain ⟨b⟩ := c
    cases hc
    exact ⟨rfl, rfl⟩
  · intro n wg hn
    match n, hn with
    | n + 1, _ =>
      simpa [closeN, endlessConnClose, tcpConnClose] using closeN_closed n (wg - 1)

/-- Witness for C1: a connection closed twice after being accepted decrements
the counter exactly once, and a close on an already-closed connection leaves
the counter at its value. -/
theorem conn_tracking_spec_witness :
    (ConnState.mk true).closed = true ∧
    (endlessConnClose (ConnState.mk true) 7).2.2 = 7 ∧
    (1 ≤ 2 ∧ closeN 2 { closed := false } 5 = ({ closed := true }, 5 - 1)) := by
  refine ⟨rfl, (conn_tracking_spec.2.2.1 (ConnState.mk true) 7 rfl).2, ?_, ?_⟩
  · decide
  · exact conn_tracking_spec.2.2.2 2 5 (by decide)

/-! ### Fork coordinator (claim C2)

`endlessServer.fork` runs under `runningServerReg.Lock()`.  The spawned
child and the flag write are recorded as an ordered event list, so that the
"flag set before spawn" ordering is visible in the model. -/

/-- Observable actions of one `fork` call, in program order. -/
inductive ForkEvent where
  | setForked
  | spawnChild
deriving DecidableEq, Repr

/-- The process-wide fork bookkeeping: the `runningServersForked` flag and a
count of `cmd.Start()` invocations performed so far. -/
structure ForkGlobals where
  forked : Bool
  spawned : Nat
deriving DecidableEq, Repr

/-- The error text `fork` returns when another fork already happened. -/
def forkErrMsg : String := "Another process already forked. Ignoring this one."

/-- Go `endlessServer.fork`, restricted to its registry bookkeeping:

```go
runningServerReg.Lock()
defer runningServerReg.Unlock()
if runningServersForked {
    return errors.New("Another process already forked. Ignoring this one.")
}
runningServersForked = true
...
err = cmd.Start()
```

Returns the error, the ordered events performed, and the new globals. -/
def fork (g : ForkGlobals) : Option String × List ForkEvent × ForkGlobals :=
  if g.forked then (some forkErrMsg, [], g)
  else
    (none, [ForkEvent.setForked, ForkEvent.spawnChild],
      { forked := true, spawned := g.spawned + 1 })

/-- `n` successive `fork` calls (one per delivered SIGHUP). -/
def forkN : Nat → ForkGlobals → ForkGlobals
  | 0, g => g
  | n + 1, g => forkN n (fork g).2.2

/-- Over any number of `fork` calls the spawn count grows by at most one
(zero if the flag is already set). -/
theorem forkN_spawned_le (n : Nat) (g : ForkGlobals) :
    (forkN n g).spawned ≤ g.spawned + (if g.forked then 0 else 1) := by
  induction n generalizing g with
  | zero => cases hf : g.forked <;> simp [forkN, hf]
  | succ n ih =>
    cases hf : g.forked with
    | true =>
      have := ih g
      simpa [forkN, fork, hf] using this
    | false =>
      have := ih { forked := true, spawned := g.spawned + 1 }
      simp only [forkN, fork, hf, if_false, Bool.false_eq_true]
      simpa using this

/-- The `runningServersForked` flag never resets across `fork` calls. -/
theorem forkN_forked (n : Nat) (g : ForkGlobals) (h : g.forked = true) :
    (forkN n g).forked = true := by
  induction n generalizing g with
  | zero => simpa [forkN] using h
  | succ n ih => simpa [forkN, fork, h] using ih g h

/-- C2: at most one fork succeeds per parent process regardless of how many
SIGHUPs arrive.  With the flag already set, `fork` returns the
"already forked" error, performs no event (in particular spawns nothing) and
leaves the globals unchanged; with the flag clear it sets the flag and then
spawns, in that order; the flag never resets; and over any number of `fork`
calls at most one spawn happens. -/
theorem fork_at_most_once :
    (∀ g : ForkGlobals, g.forked = true → fork g = (some forkErrMsg, [], g)) ∧
    (∀ g : ForkGlobals, g.forked = false →
      fork g = (none, [ForkEvent.setForked, ForkEvent.spawnChild],
        { forked := true, spawned := g.spawned + 1 })) ∧
    (∀ (n : Nat) (g : ForkGlobals), g.forked = false →
      (forkN n g).spawned ≤ g.spawned + 1) ∧
    (∀ (n : Nat) (g : ForkGlobals), g.forked = true →
      (forkN n g).forked = true ∧ (forkN n g).spawned = g.spawned) := by
  refine ⟨?_, ?_, ?_, ?_⟩
  · intro g h
    simp [fork, h]
  · intro g h
    simp [fork, h]
  · intro n g h
    have := forkN_spawned_le n g
    simpa [h] using this
  · intro n g h
    refine ⟨forkN_forked n g h, ?_⟩
    have hfrozen : forkN n g = g := by
      induction n with
      | zero => rfl
      | succ n ih => simpa [forkN, fork, h] using ih
    rw [hfrozen]

/-- Witness for C2: from a fresh parent (`forked = false`), three SIGHUPs
produce exactly one spawn; with the flag set, `fork` errors and changes
nothing. -/
theorem fork_at_most_once_witness :
    ((ForkGlobals.mk true 1).forked = true ∧
      fork (ForkGlobals.mk true 1) = (some forkErrMsg, [], ForkGlobals.mk true 1)) ∧
    ((ForkGlobals.mk false 0).forked = false ∧
      (forkN 3 (ForkGlobals.mk false 0)).spawned ≤ (ForkGlobals.mk false 0).spawned + 1) := by
  refine ⟨⟨rfl, ?_⟩, rfl, ?_⟩
  · exact fork_at_most_once.1 (ForkGlobals.mk true 1) rfl
  · exact fork_at_most_once.2.2.1 3 (ForkGlobals.mk false 0) rfl

/-! ### Signal hooks (claim C9) -/

/-- The OS signals relevant to the library: the six hookable ones plus two
others (`SIGQUIT`, `SIGWINCH`) standing for arbitrary non-hookable
signals. -/
inductive GoSignal where
  | sighup
  | sigusr1
  | sigusr2
  | sigint
  | sigterm
  | sigtstp
  | sigquit
  | sigwinch
deriving DecidableEq, Repr

/-- Go global `hookableSignals`, as initialized in `init()`. -/
def hookableSignals : List GoSignal :=
  [GoSignal.sighup, GoSignal.sigusr1, GoSignal.sigusr2,
   GoSignal.sigint, GoSignal.sigterm, GoSignal.sigtstp]

/-- Go constant `PRE_SIGNAL` (first value of the `iota` block). -/
def PRE_SIGNAL : Nat := 0

/-- Go constant `POST_SIGNAL`. -/
def POST_SIGNAL : Nat := 1

/-- The `SignalHooks` table of an `endlessServer`: for each phase
(`PRE_SIGNAL`/`POST_SIGNAL`) and signal, the registered callbacks in order.
Callbacks are abstracted as opaque identifiers. -/
def HooksTable : Type := Nat → GoSignal → List Nat

/-- Go `endlessServer.RegisterSignalHook`:

```go
func (srv *endlessServer) RegisterSignalHook(prePost int, sig os.Signal, f func()) (err error) {
    if prePost != PRE_SIGNAL && prePost != POST_SIGNAL {
        err = fmt.Errorf("Cannot use %v for prePost arg. ...")
        return
    }
    for _, s := range hookableSignals {
        if s == sig {
            srv.SignalHooks[prePost][sig] = append(srv.SignalHooks[prePost][sig], f)
            return
        }
    }
    err = fmt.Errorf("Signal %v is not supported.", sig)
    return
}
```

The `for` loop appends once and returns at the first (unique) match, i.e.
exactly when `sig ∈ hookableSignals`.  Returns the error and the resulting
table. -/
def RegisterSignalHook (prePost : Nat) (sig : GoSignal) (f : Nat)
    (hooks : HooksTable) : Option String × HooksTable :=
  if prePost ≠ PRE_SIGNAL ∧ prePost ≠ POST_SIGNAL then
    (some "Cannot use it for prePost arg. Must be endless.PRE_SIGNAL or endless.POST_SIGNAL.",
      hooks)
  else if sig ∈ hookableSignals then
    (none,
      fun p s =>
        if p = prePost ∧ s = sig then hooks p s ++ [f] else hooks p s)
  else
    (some "Signal is not supported.", hooks)

/-- C9: `RegisterSignalHook(phase, signal, fn)` appends `fn` (once, at the
end) to the hook list for `(phase, signal)` and returns no error when the
phase is `PRE_SIGNAL` or `POST_SIGNAL` and the signal is hookable, leaving
every other `(phase, signal)` list unchanged; for any other phase or any
non-hookable signal it returns an error and leaves the whole table
unchanged. -/
theorem RegisterSignalHook_spec (prePost : Nat) (sig : GoSignal) (f : Nat)
    (hooks : HooksTable) :
    ((prePost = PRE_SIGNAL ∨ prePost = POST_SIGNAL) → sig ∈ hookableSignals →
      (RegisterSignalHook prePost sig f hooks).1 = none ∧
      (RegisterSignalHook prePost sig f hooks).2 prePost sig
          = hooks prePost sig ++ [f] ∧
      (∀ (p : Nat) (s : GoSignal), ¬(p = prePost ∧ s = sig) →
        (RegisterSignalHook prePost sig f hooks).2 p s = hooks p s)) ∧
    ((¬(prePost = PRE_SIGNAL ∨ prePost = POST_SIGNAL) ∨ sig ∉ hookableSignals) →
      (RegisterSignalHook prePost sig f hooks).1.isSome = true ∧
      (RegisterSignalHook prePost sig f hooks).2 = hooks) := by
  constructor
  · intro hp hs
    have hcond : ¬(prePost ≠ PRE_SIGNAL ∧ prePost ≠ POST_SIGNAL) := by
      rcases hp with h | h <;> simp [h]
    refine ⟨?_, ?_, ?_⟩
    · simp [RegisterSignalHook, hcond, hs]
    · simp [RegisterSignalHook, hcond, hs]
    · intro p s hne
      simp [RegisterSignalHook, hcond, hs, hne]
  · intro hbad
    rcases hbad with hbad | hbad
    · have hcond : prePost ≠ PRE_SIGNAL ∧ prePost ≠ POST_SIGNAL := by
        constructor <;> intro h <;> exact hbad (by simp [h])
      constructor <;> simp [RegisterSignalHook, hcond]
    · by_cases hcond : prePost ≠ PRE_SIGNAL ∧ prePost ≠ POST_SIGNAL
      · constructor <;> simp [RegisterSignalHook, hcond]
      · constructor <;> simp [RegisterSignalHook, hcond, hbad]

/-- Witness for C9: registering a `SIGHUP` pre-hook on the empty table
appends it and returns no error, while registering for the non-hookable
`SIGQUIT` errors and leaves the table untouched. -/
theorem RegisterSignalHook_spec_witness :
    ((0 = PRE_SIGNAL ∨ 0 = POST_SIGNAL) ∧ GoSignal.sighup ∈ hookableSignals ∧
      (RegisterSignalHook 0 GoSignal.sighup 42 (fun _ _ => [])).1 = none ∧
      (RegisterSignalHook 0 GoSignal.sighup 42 (fun _ _ => [])).2 0 GoSignal.sighup
        = ([] : List Nat) ++ [42]) ∧
    (GoSignal.sigquit ∉ hookableSignals ∧
      (RegisterSignalHook 0 GoSignal.sigquit 7 (fun _ _ => [])).1.isSome = true ∧
      (RegisterSignalHook 0 GoSignal.sigquit 7 (fun _ _ => [])).2
        = (fun _ _ => [])) := by
  constructor
  · refine ⟨Or.inl rfl, by decide, ?_, ?_⟩
    · exact ((RegisterSignalHook_spec 0 GoSignal.sighup 42 (fun _ _ => [])).1
        (Or.inl rfl) (by decide)).1
    · exact ((RegisterSignalHook_spec 0 GoSignal.sighup 42 (fun _ _ => [])).1
        (Or.inl rfl) (by decide)).2.1
  · refine ⟨by decide, ?_⟩
    exact (RegisterSignalHook_spec 0 GoSignal.sigquit 7 (fun _ _ => [])).2
      (Or.inr (by decide))

/-! ### Child startup and SIGTERM-to-parent (claim C7)

Addresses (and other Go strings subject to splitting) are modelled as
`List Char`. -/

/-- Go strings, as character lists. -/
abbrev GoStr := List Char

/-- Observable actions of the child-specific part of
`ListenAndServe`/`ListenAndServeTLS`, in program order. -/
inductive ChildEvent where
  | killParent (ppid : Nat)
  | sleep10ms
  | beforeBegin (addr : GoStr)
  | logPidAddr
  | serveEnter
deriving DecidableEq, Repr

/-- The child's SIGTERM retry loop in `ListenAndServe`:

```go
for cnt := 0; cnt < 3; cnt++ {
    if ppid == 1 { logPrintf("%s, ppid is 1", event); break }
    kErr := syscall.Kill(ppid, syscall.SIGTERM)
    logPrintf("%s, err: %v\n", event, kErr)
    time.Sleep(10 * time.Millisecond)
}
```

(`ppid` is read once, before the loop.) -/
def sigtermRetryLoop : Nat → Nat → List ChildEvent
  | 0, _ => []
  | n + 1, ppid =>
    if ppid = 1 then []
    else ChildEvent.killParent ppid :: ChildEvent.sleep10ms ::
      sigtermRetryLoop n ppid

/-- Event trace of `endlessServer.ListenAndServe` from the point the
listener is wrapped: the child branch (SIGTERM retry loop), then
`srv.BeforeBegin(srv.Addr)`, then `srv.Serve()`. -/
def ListenAndServeEvents (isChild : Bool) (ppid : Nat) (addr : GoStr) :
    List ChildEvent :=
  (if isChild then sigtermRetryLoop 3 ppid else []) ++
    [ChildEvent.beforeBegin addr, ChildEvent.serveEnter]

/-- Event trace of `endlessServer.ListenAndServeTLS` from the point the TLS
listener is wrapped:

```go
if srv.isChild {
    kErr := syscall.Kill(syscall.Getppid(), syscall.SIGTERM)
    logPrintf("error while sending sigterm from %v to parent %v, %v\n", ...)
}
logPrintln(syscall.Getpid(), srv.Addr)
return srv.Serve()
```

One unconditional `Kill`, no retry, no parent-PID-1 check, and no
`BeforeBegin` call. -/
def ListenAndServeTLSEvents (isChild : Bool) (ppid : Nat) (_addr : GoStr) :
    List ChildEvent :=
  (if isChild then [ChildEvent.killParent ppid] else []) ++
    [ChildEvent.logPidAddr, ChildEvent.serveEnter]

/-- Number of SIGTERM sends in a trace. -/
def killCount (evs : List ChildEvent) : Nat :=
  (evs.filter fun e =>
    match e with
    | ChildEvent.killParent _ => true
    | _ => false).length

/-- Counterexample to C7 as stated: `ListenAndServeTLS` is not identical to
`ListenAndServe` in this respect.  With the parent already process 1 the
claim requires the SIGTERM send to be skipped entirely, yet the TLS path of
a child sends exactly one SIGTERM (while the HTTP path sends none), and the
TLS path never invokes `beforeBegin`. -/
theorem listenAndServeTLS_cex :
    killCount (ListenAndServeTLSEvents true 1 ['x']) = 1 ∧
    killCount (ListenAndServeEvents true 1 ['x']) = 0 ∧
    ChildEvent.beforeBegin ['x'] ∉ ListenAndServeTLSEvents true 1 ['x'] := by
  decide

/-- C7 amended: in `ListenAndServe` a restart child sends SIGTERM to its
parent exactly three times at 10 ms intervals when the parent is not process
1, skips the sends entirely when the parent is process 1, and does so before
invoking `beforeBegin(address)` and entering `Serve`; in `ListenAndServeTLS`,
however, the child sends SIGTERM exactly once, unconditionally (no retries
and no process-1 skip), before entering `Serve`, and `beforeBegin` is not
invoked on that path.  A non-child sends no SIGTERM on either path. -/
theorem child_sigterm_spec (ppid : Nat) (addr : GoStr) :
    (ppid = 1 → ListenAndServeEvents true ppid addr
        = [ChildEvent.beforeBegin addr, ChildEvent.serveEnter]) ∧
    (ppid ≠ 1 → ListenAndServeEvents true ppid addr
        = [ChildEvent.killParent ppid, ChildEvent.sleep10ms,
           ChildEvent.killParent ppid, ChildEvent.sleep10ms,
           ChildEvent.killParent ppid, ChildEvent.sleep10ms,
           ChildEvent.beforeBegin addr, ChildEvent.serveEnter]) ∧
    (ListenAndServeTLSEvents true ppid addr
        = [ChildEvent.killParent ppid, ChildEvent.logPidAddr,
           ChildEvent.serveEnter]) ∧
    (killCount (ListenAndServeEvents false ppid addr) = 0 ∧
      killCount (ListenAndServeTLSEvents false ppid addr) = 0) := by
  refine ⟨?_, ?_, rfl, ?_, ?_⟩
  · intro h
    subst h
    rfl
  · intro h
    show (if true = true then sigtermRetryLoop 3 ppid else []) ++ _ = _
    rw [if_pos rfl]
    rw [show (3 : Nat) = 2 + 1 from rfl, sigtermRetryLoop, if_neg h]
    rw [show (2 : Nat) = 1 + 1 from rfl, sigtermRetryLoop, if_neg h]
    rw [show (1 : Nat) = 0 + 1 from rfl, sigtermRetryLoop, if_neg h]
    rfl
  · rfl
  · rfl

/-- Witness for the amended C7 at a concrete non-1 parent PID. -/
theorem child_sigterm_spec_witness :
    (5 : Nat) ≠ 1 ∧
    ListenAndServeEvents true 5 ['x']
      = [ChildEvent.killParent 5, ChildEvent.sleep10ms,
         ChildEvent.killParent 5, ChildEvent.sleep10ms,
         ChildEvent.killParent 5, ChildEvent.sleep10ms,
         ChildEvent.beforeBegin ['x'], ChildEvent.serveEnter] := by
  refine ⟨by decide, ?_⟩
  exact (child_sigterm_spec 5 ['x']).2.1 (by decide)

/-! ### Socket order encode/decode (claims C3, C4, C10) -/

/-- Go `strings.Join(l, ",")` on character-list strings. -/
def goJoin : List GoStr → GoStr
  | [] => []
  | [x] => x
  | x :: xs => x ++ ',' :: goJoin xs

/-- Go `strings.Split(s, ",")` on character-list strings. -/
def goSplit : GoStr → List GoStr
  | [] => [[]]
  | c :: cs =>
    match goSplit cs with
    | [] => [[]]
    | h :: t => if c = ',' then [] :: h :: t else (c :: h) :: t

/-- `goSplit` never returns an empty list of fields. -/
theorem goSplit_ne_nil (s : GoStr) : goSplit s ≠ [] := by
  cases s with
  | nil => simp [goSplit]
  | cons c cs =>
    simp only [goSplit]
    cases goSplit cs with
    | nil => simp
    | cons h t =>
      by_cases hc : c = ',' <;> simp [hc]

/-- Splitting a comma-free string yields that single field. -/
theorem goSplit_no_comma (x : GoStr) (hx : ',' ∉ x) : goSplit x = [x] := by
  induction x with
  | nil => rfl
  | cons c cs ih =>
    have hc : c ≠ ',' := fun h => hx (by simp [h])
    have hcs : ',' ∉ cs := fun h => hx (List.mem_cons_of_mem _ h)
    simp [goSplit, ih hcs, hc]

/-- Splitting a comma-free field, a comma, then a remainder splits off the
field. -/
theorem goSplit_append (x l : GoStr) (hx : ',' ∉ x) :
    goSplit (x ++ ',' :: l) = x :: goSplit l := by
  induction x with
  | nil =>
    simp only [List.nil_append, goSplit]
    cases h : goSplit l with
    | nil => exact absurd h (goSplit_ne_nil l)
    | cons a t => simp
  | cons c cs ih =>
    have hc : c ≠ ',' := fun h => hx (by simp [h])
    have hcs : ',' ∉ cs := fun h => hx (List.mem_cons_of_mem _ h)
    simp [goSplit, ih hcs, hc]

/-- Round trip of the Go string helpers: splitting a comma-join of a
nonempty list of comma-free fields recovers the fields. -/
theorem goSplit_goJoin (L : List GoStr) (hne : L ≠ [])
    (hfree : ∀ x ∈ L, ',' ∉ x) : goSplit (goJoin L) = L := by
  induction L with
  | nil => exact absurd rfl hne
  | cons x xs ih =>
    cases xs with
    | nil => simpa [goJoin] using goSplit_no_comma x (hfree x (by simp))
    | cons y ys =>
      have hx : ',' ∉ x := hfree x (by simp)
      have hrec : goJoin (x :: y :: ys) = x ++ ',' :: goJoin (y :: ys) := rfl
      rw [hrec, goSplit_append x _ hx,
        ih (by simp) (fun z hz => hfree z (List.mem_cons_of_mem _ hz))]

/-- A Go `map[string]uint` read with zero-value default.  Maps are kept as
the list of writes performed; the last write for a key wins, so lookup scans
from the most recent write, and a missing key yields `0`. -/
def mapGet (m : List (GoStr × Nat)) (k : GoStr) : Nat :=
  match m.reverse.find? (fun p => decide (p.1 = k)) with
  | some p => p.2
  | none => 0

/-- A key never written reads as the zero value. -/
theorem mapGet_not_mem (m : List (GoStr × Nat)) (k : GoStr)
    (h : ∀ p ∈ m, p.1 ≠ k) : mapGet m k = 0 := by
  unfold mapGet
  have hnone : m.reverse.find? (fun p => decide (p.1 = k)) = none := by
    rw [List.find?_eq_none]
    intro p hp
    simpa using h p (List.mem_reverse.1 hp)
  rw [hnone]

/-- An earlier write is shadowed whenever any later write uses the key. -/
theorem mapGet_cons_of_mem (a : GoStr) (v : Nat) (m : List (GoStr × Nat))
    (k : GoStr) (h : ∃ p ∈ m, p.1 = k) :
    mapGet ((a, v) :: m) k = mapGet m k := by
  unfold mapGet
  rw [List.reverse_cons, List.find?_append]
  obtain ⟨p, hp, hpk⟩ := h
  have hsome : (m.reverse.find? (fun p => decide (p.1 = k))).isSome := by
    rw [List.find?_isSome]
    exact ⟨p, List.mem_reverse.2 hp, by simpa using hpk⟩
  obtain ⟨q, hq⟩ := Option.isSome_iff_exists.1 hsome
  rw [hq]
  rfl

/-- With no later write for the key, the head write decides the lookup. -/
theorem mapGet_cons_of_not_mem (a : GoStr) (v : Nat) (m : List (GoStr × Nat))
    (k : GoStr) (h : ∀ p ∈ m, p.1 ≠ k) :
    mapGet ((a, v) :: m) k = if a = k then v else 0 := by
  unfold mapGet
  rw [List.reverse_cons, List.find?_append]
  have hnone : m.reverse.find? (fun p => decide (p.1 = k)) = none := by
    rw [List.find?_eq_none]
    intro p hp
    simpa using h p (List.mem_reverse.1 hp)
  rw [hnone]
  by_cases hak : a = k <;> simp [List.find?, hak]

/-- The indexed write loop `for i, addr := range addrs { map[addr] = uint(i) }`
starting at index `i₀`, as the list of map writes it performs.  With
`i₀ = 0` this is both the child's decode loop in `NewServer` and the
offsets a parent's successive `NewServer` calls accumulate
(`socketPtrOffsetMap[addr] = uint(len(runningServersOrder))` immediately
before `addr` is appended to `runningServersOrder`). -/
def offsetsFrom : Nat → List GoStr → List (GoStr × Nat)
  | _, [] => []
  | i, a :: rest => (a, i) :: offsetsFrom (i + 1) rest

/-- Offsets assigned by position, starting at 0. -/
def offsetsByPosition (addrs : List GoStr) : List (GoStr × Nat) :=
  offsetsFrom 0 addrs

/-- Keys written by the loop are exactly the listed addresses. -/
theorem fst_mem_of_mem_offsetsFrom (i : Nat) (addrs : List GoStr)
    (p : GoStr × Nat) (hp : p ∈ offsetsFrom i addrs) : p.1 ∈ addrs := by
  induction addrs generalizing i with
  | nil => simp [offsetsFrom] at hp
  | cons a rest ih =>
    rcases List.mem_cons.1 hp with h | h
    · simp [h]
    · exact List.mem_cons_of_mem _ (ih (i + 1) h)

/-- Every listed address gets a write. -/
theorem exists_mem_offsetsFrom (i : Nat) (addrs : List GoStr) (a : GoStr)
    (ha : a ∈ addrs) : ∃ p ∈ offsetsFrom i addrs, p.1 = a := by
  induction addrs generalizing i with
  | nil => simp at ha
  | cons b rest ih =>
    rcases List.mem_cons.1 ha with h | h
    · exact ⟨(b, i), by simp [offsetsFrom], h.symm⟩
    · obtain ⟨p, hp, hpa⟩ := ih (i + 1) h
      exact ⟨p, List.mem_cons_of_mem _ hp, hpa⟩

/-- With distinct addresses the decoded map sends the `j`-th address to
`i₀ + j`. -/
theorem mapGet_offsetsFrom (addrs : List GoStr) (hnd : addrs.Nodup)
    (i j : Nat) (hj : j < addrs.length) :
    mapGet (offsetsFrom i addrs) (addrs.get ⟨j, hj⟩) = i + j := by
  induction addrs generalizing i j with
  | nil => simp at hj
  | cons a rest ih =>
    obtain ⟨hna, hndr⟩ := List.nodup_cons.1 hnd
    cases j with
    | zero =>
      have hkeys : ∀ p ∈ offsetsFrom (i + 1) rest, p.1 ≠ a := fun p hp he =>
        hna (he ▸ fst_mem_of_mem_offsetsFrom (i + 1) rest p hp)
      show mapGet ((a, i) :: offsetsFrom (i + 1) rest) a = i + 0
      rw [mapGet_cons_of_not_mem _ _ _ _ hkeys]
      simp
    | succ j =>
      have hj₂ : j < rest.length := by simpa using hj
      have hmem : rest.get ⟨j, hj₂⟩ ∈ rest := List.get_mem rest j hj₂
      show mapGet ((a, i) :: offsetsFrom (i + 1) rest) (rest.get ⟨j, hj₂⟩)
          = i + (j + 1)
      rw [mapGet_cons_of_mem _ _ _ _
        (exists_mem_offsetsFrom (i + 1) rest _ hmem)]
      rw [ih hndr (i + 1) j hj₂]
      omega

/-- Position lookup for offsets assigned from 0. -/
theorem mapGet_offsetsByPosition (addrs : List GoStr) (hnd : addrs.Nodup)
    (j : Nat) (hj : j < addrs.length) :
    mapGet (offsetsByPosition addrs) (addrs.get ⟨j, hj⟩) = j := by
  simpa using mapGet_offsetsFrom addrs hnd 0 j hj

/-- Membership form: looking an address up and indexing back recovers it. -/
theorem getElem?_mapGet_offsetsByPosition (addrs : List GoStr)
    (hnd : addrs.Nodup) (a : GoStr) (ha : a ∈ addrs) :
    addrs[mapGet (offsetsByPosition addrs) a]? = some a := by
  obtain ⟨⟨j, hj⟩, rfl⟩ := List.mem_iff_get.1 ha
  rw [mapGet_offsetsByPosition addrs hnd j hj]
  simp [List.getElem?_eq_getElem hj, List.get_eq_getElem]

/-- The loop writes of `offsetsFrom` are one per address. -/
theorem length_offsetsFrom (i : Nat) (addrs : List GoStr) :
    (offsetsFrom i addrs).length = addrs.length := by
  induction addrs generalizing i with
  | nil => rfl
  | cons a rest ih => simp [offsetsFrom, ih]

/-- The slot-placement loop of `fork`:

```go
var orderArgs = make([]string, len(runningServers))
for _, srvPtr := range runningServers {
    ...
    orderArgs[socketPtrOffsetMap[srvPtr.Server.Addr]] = srvPtr.Server.Addr
}
```

`iter` is the registry map's (arbitrary) iteration order and `n` is
`len(runningServers)`. -/
def buildOrderArgs (iter : List GoStr) (offs : List (GoStr × Nat)) (n : Nat) :
    List GoStr :=
  iter.foldl (fun acc a => acc.set (mapGet offs a) a) (List.replicate n [])

/-- Generalized correctness of the slot-placement fold: starting from any
accumulator of the right length in which every slot either has a pending
writer or already holds its final value, the fold reconstructs `addrs`. -/
theorem foldl_set_recovers (addrs : List GoStr) (hnd : addrs.Nodup)
    (it : List GoStr) :
    ∀ acc : List GoStr,
      acc.length = addrs.length →
      (∀ a ∈ it, a ∈ addrs) →
      (∀ j, j < addrs.length →
        (∃ a ∈ it, mapGet (offsetsByPosition addrs) a = j) ∨
          acc[j]? = addrs[j]?) →
      it.foldl (fun acc a => acc.set (mapGet (offsetsByPosition addrs) a) a) acc
        = addrs := by
  induction it with
  | nil =>
    intro acc hlen _ hinv
    simp only [List.foldl_nil]
    apply List.ext_getElem?
    intro j
    by_cases hj : j < addrs.length
    · rcases hinv j hj with ⟨a, ha, _⟩ | h
      · exact absurd ha (by simp)
      · exact h
    · rw [List.getElem?_eq_none (l := acc) (by omega),
        List.getElem?_eq_none (by omega)]
  | cons a rest ih =>
    intro acc hlen hsub hinv
    rw [List.foldl_cons]
    apply ih
    · simp [hlen]
    · exact fun b hb => hsub b (List.mem_cons_of_mem _ hb)
    · intro j hj
      have hamem : a ∈ addrs := hsub a (by simp)
      have hidx : addrs[mapGet (offsetsByPosition addrs) a]? = some a :=
        getElem?_mapGet_offsetsByPosition addrs hnd a hamem
      have hlt : mapGet (offsetsByPosition addrs) a < addrs.length := by
        rcases List.getElem?_eq_some.1 hidx with ⟨h, _⟩
        exact h
      by_cases hja : mapGet (offsetsByPosition addrs) a = j
      · right
        rw [← hja, List.getElem?_set_self (by omega), hidx]
      · rcases hinv j hj with ⟨b, hb, hbj⟩ | h
        · rcases List.mem_cons.1 hb with rfl | hbrest
          · exact absurd hbj hja
          · exact Or.inl ⟨b, hbrest, hbj⟩
        · right
          rw [List.getElem?_set_ne hja]
          exact h

/-- The parent's slot placement reconstructs the registration order
whatever order the registry map is iterated in. -/
theorem buildOrderArgs_recovers (addrs iter : List GoStr) (hnd : addrs.Nodup)
    (hperm : iter.Perm addrs) :
    buildOrderArgs iter (offsetsByPosition addrs) addrs.length = addrs := by
  unfold buildOrderArgs
  apply foldl_set_recovers addrs hnd iter
  · simp
  · exact fun a ha => hperm.subset ha
  · intro j hj
    refine Or.inl ⟨addrs.get ⟨j, hj⟩, ?_,
      mapGet_offsetsByPosition addrs hnd j hj⟩
    exact hperm.mem_iff.2 (List.get_mem addrs j hj)

/-- The child's decode of `ENDLESS_SOCKET_ORDER` in `NewServer`:

```go
if len(socketOrder) > 0 {
    for i, addr := range strings.Split(socketOrder, ",") {
        socketPtrOffsetMap[addr] = uint(i)
    }
}
```
-/
def decodeSocketOrder (socketOrder : GoStr) : List (GoStr × Nat) :=
  offsetsFrom 0 (goSplit socketOrder)

/-- The `ENDLESS_SOCKET_ORDER` value the parent's `fork` passes when more
than one server is registered:
`fmt.Sprintf("ENDLESS_SOCKET_ORDER=%s", strings.Join(orderArgs, ","))`. -/
def encodeSocketOrder (iter : List GoStr) (offs : List (GoStr × Nat))
    (n : Nat) : GoStr :=
  goJoin (buildOrderArgs iter offs n)

/-- C4: round-trip of the socket order.  For registered addresses
`[a1, ..., an]` with `n > 1` (distinct, comma-free, as addresses are), the
parent's `fork` encodes them into `ENDLESS_SOCKET_ORDER` with each address
at the slot given by its `socketPtrOffsetMap` entry — whatever order `iter`
the registry map is iterated in — and the child's decode assigns offsets by
position, reproducing the parent's `socketPtrOffsetMap` exactly. -/
theorem socket_order_roundtrip (addrs iter : List GoStr)
    (hlen : 1 < addrs.length) (hnd : addrs.Nodup)
    (hfree : ∀ a ∈ addrs, ',' ∉ a) (hperm : iter.Perm addrs) :
    decodeSocketOrder
        (encodeSocketOrder iter (offsetsByPosition addrs) addrs.length)
      = offsetsByPosition addrs := by
  unfold decodeSocketOrder encodeSocketOrder
  rw [buildOrderArgs_recovers addrs iter hnd hperm,
    goSplit_goJoin addrs (by rintro rfl; simp at hlen) hfree]
  rfl

/-- Witness for C4 on two addresses iterated in the reversed order. -/
theorem socket_order_roundtrip_witness :
    1 < ([['a'], ['b']] : List GoStr).length ∧
    ([['a'], ['b']] : List GoStr).Nodup ∧
    List.Perm [['b'], ['a']] ([['a'], ['b']] : List GoStr) ∧
    decodeSocketOrder
        (encodeSocketOrder [['b'], ['a']] (offsetsByPosition [['a'], ['b']])
          ([['a'], ['b']] : List GoStr).length)
      = offsetsByPosition [['a'], ['b']] := by
  have hperm : List.Perm [['b'], ['a']] ([['a'], ['b']] : List GoStr) :=
    List.Perm.swap ['a'] ['b'] []
  refine ⟨by decide, by decide, hperm, ?_⟩
  exact socket_order_roundtrip [['a'], ['b']] [['b'], ['a']]
    (by decide) (by decide) (by decide) hperm

/-- Go `endlessServer.getListener`, child branch, reduced to the inherited
descriptor index it opens:

```go
var ptrOffset uint = 0
runningServerReg.RLock()
defer runningServerReg.RUnlock()
if len(socketPtrOffsetMap) > 0 {
    ptrOffset = socketPtrOffsetMap[laddr]
}
f := os.NewFile(uintptr(3+ptrOffset), "")
l, err = net.FileListener(f)
```
-/
def getListenerFD (socketPtrOffsetMap : List (GoStr × Nat)) (laddr : GoStr) :
    Nat :=
  3 + (if 0 < socketPtrOffsetMap.length
        then mapGet socketPtrOffsetMap laddr else 0)

/-- C3: in a child, the listener for the `j`-th address of the decoded
socket order is opened from inherited descriptor `3 + j`, i.e.
`3 + socketPtrOffsetMap[A]`; and in the single-listener case (one registered
address with offset 0, as `NewServer` assigns when `ENDLESS_SOCKET_ORDER` is
absent) the descriptor is `3`. -/
theorem getListener_child_fd (order : List GoStr) (hnd : order.Nodup)
    (j : Nat) (hj : j < order.length) :
    getListenerFD (offsetsByPosition order) (order.get ⟨j, hj⟩) = 3 + j ∧
    ∀ a : GoStr, getListenerFD (offsetsByPosition [a]) a = 3 := by
  constructor
  · unfold getListenerFD
    have hpos : 0 < (offsetsByPosition order).length := by
      unfold offsetsByPosition
      rw [length_offsetsFrom]
      omega
    rw [if_pos hpos, mapGet_offsetsByPosition order hnd j hj]
  · intro a
    show getListenerFD [(a, 0)] a = 3
    have hz : mapGet [(a, 0)] a = 0 := by
      rw [show ([(a, 0)] : List (GoStr × Nat)) = (a, 0) :: [] from rfl,
        mapGet_cons_of_not_mem a 0 [] a (by simp)]
      simp
    unfold getListenerFD
    rw [hz]
    split <;> rfl

/-- Witness for C3: with decoded order `["a", "b"]` the second address is
served from descriptor `3 + 1`, and a single address from descriptor 3. -/
theorem getListener_child_fd_witness :
    ([['a'], ['b']] : List GoStr).Nodup ∧
    1 < ([['a'], ['b']] : List GoStr).length ∧
    getListenerFD (offsetsByPosition [['a'], ['b']])
        (List.get [['a'], ['b']] ⟨1, by decide⟩) = 3 + 1 ∧
    getListenerFD (offsetsByPosition [['c']]) ['c'] = 3 := by
  have h := getListener_child_fd [['a'], ['b']] (by decide) 1 (by decide)
  exact ⟨by decide, by decide, h.1, h.2 ['c']⟩

/-- C10: in a child, an address absent from the decoded socket-offset map
does not make listener acquisition fail: the missing-key lookup yields the
zero value, so the listener is taken from inherited descriptor 3 — the same
slot as the first-ordered address (and likewise when the map is empty). -/
theorem getListener_missing_addr (order : List GoStr) (laddr : GoStr)
    (hmiss : laddr ∉ order) :
    getListenerFD (offsetsByPosition order) laddr = 3 ∧
    (∀ (a : GoStr) (rest : List GoStr), a ∉ rest →
      getListenerFD (offsetsByPosition (a :: rest)) a = 3) ∧
    getListenerFD [] laddr = 3 := by
  refine ⟨?_, ?_, rfl⟩
  · have hz : mapGet (offsetsByPosition order) laddr = 0 := by
      apply mapGet_not_mem
      intro p hp he
      exact hmiss (he ▸ fst_mem_of_mem_offsetsFrom 0 order p hp)
    unfold getListenerFD
    rw [hz]
    split <;> rfl
  · intro a rest hna
    have hz : mapGet (offsetsByPosition (a :: rest)) a = 0 := by
      show mapGet ((a, 0) :: offsetsFrom 1 rest) a = 0
      rw [mapGet_cons_of_not_mem a 0 _ a (fun p hp he =>
        hna (he ▸ fst_mem_of_mem_offsetsFrom 1 rest p hp))]
      simp
    unfold getListenerFD
    rw [hz]
    split <;> rfl

/-- Witness for C10: address `"c"` is absent from the decoded order
`["a", "b"]`, yet the child opens descriptor 3 for it, the slot of the
first-ordered address `"a"`. -/
theorem getListener_missing_addr_witness :
    (['c'] : GoStr) ∉ ([['a'], ['b']] : List GoStr) ∧
    getListenerFD (offsetsByPosition [['a'], ['b']]) ['c'] = 3 ∧
    getListenerFD (offsetsByPosition [['a'], ['b']]) ['a'] = 3 := by
  have h := getListener_missing_addr [['a'], ['b']] ['c'] (by decide)
  exact ⟨by decide, h.1, h.2.1 ['a'] [['b']] (by decide)⟩

end Endless
